/-
  Verification of the ST7735 SPI TFT display driver (src/src/lib.rs).

  The driver is shallowly embedded as trace-producing functions: every
  operation on the SPI bus, the data/command (dc) pin, the reset (rst) pin
  and the delay provider is recorded as an `Event`.  Bus writes can fail;
  failure is modelled by an oracle `ok : Nat → Bool` telling whether the
  n-th SPI write succeeds, threaded through a small state/error monad `M`.
  Machine integers are modelled as `Nat`/`Int` with explicit reductions
  modulo 2^16 / 2^32 where the Rust code casts or wraps.
-/
import Mathlib

set_option maxHeartbeats 1000000

namespace ST7735Driver

/-- One observable action of the driver on its collaborators
    (SPI bus, dc pin, rst pin, delay provider). -/
inductive Event where
  | dcLow : Event
  | dcHigh : Event
  | rstLow : Event
  | rstHigh : Event
  | delayMs : Nat → Event
  | spiWrite : List Nat → Event
  deriving DecidableEq, Repr

abbrev Trace := List Event

/-- Bus oracle: `ok n = true` iff the n-th SPI write succeeds. -/
abbrev Oracle := Nat → Bool

/-- The always-succeeding bus. -/
def allOk : Oracle := fun _ => true

/-- Trace/state/error monad: takes the count of SPI writes attempted so
    far, returns the emitted trace, the new count, and `none` on bus
    failure (Rust `Err(())`). -/
def M (α : Type) := Nat → Trace × Nat × Option α

instance : Monad M where
  pure a := fun n => ([], n, some a)
  bind x f := fun n =>
    match x n with
    | (t, n', some a) =>
        match f a n' with
        | (t', n'', r) => (t ++ t', n'', r)
    | (t, n', none) => (t, n', none)

/-- Emit a pin/delay event (infallible). -/
def emit (e : Event) : M Unit := fun n => ([e], n, some ())

/-- `self.spi.write(bytes)`: consult the oracle; on success record the
    write and return the byte count, on failure return the error. -/
def spiWriteM (ok : Oracle) (bytes : List Nat) : M Nat := fun n =>
  if ok n then ([Event.spiWrite bytes], n + 1, some bytes.length)
  else ([], n + 1, none)

/-- The driver state fields relevant to the embedded operations
    (`rgb`, `inverted`, global offset `dx`/`dy`, panel `width`/`height`).
    The bus and pins are externalized into the trace. -/
structure ST7735 where
  rgb : Bool
  inverted : Bool
  dx : Nat
  dy : Nat
  width : Nat
  height : Nat

/-- Modelled from the spec: the repository's `instruction` module
    (declared `pub mod instruction;` in lib.rs) is not among the source
    files.  Per the spec it is "a closed enumeration of protocol opcodes
    (one byte each)", each variant mapping "to exactly one fixed byte
    value defined by the chip's datasheet".  Only the variants used by
    lib.rs are modelled. -/
inductive Instruction where
  | SWRESET | SLPOUT
  | FRMCTR1 | FRMCTR2 | FRMCTR3
  | INVCTR
  | PWCTR1 | PWCTR2 | PWCTR3 | PWCTR4 | PWCTR5
  | VMCTR1
  | INVOFF | INVON
  | MADCTL | COLMOD
  | CASET | RASET | RAMWR
  | DISPON
  deriving DecidableEq, Repr

/-- Modelled from the spec: `command as u8`, the fixed one-byte opcode of
    each instruction, taken from the ST7735 datasheet (the `instruction`
    module holding these constants is not among the source files). -/
def Instruction.toByte : Instruction → Nat
  | .SWRESET => 0x01
  | .SLPOUT => 0x11
  | .FRMCTR1 => 0xB1
  | .FRMCTR2 => 0xB2
  | .FRMCTR3 => 0xB3
  | .INVCTR => 0xB4
  | .PWCTR1 => 0xC0
  | .PWCTR2 => 0xC1
  | .PWCTR3 => 0xC2
  | .PWCTR4 => 0xC3
  | .PWCTR5 => 0xC4
  | .VMCTR1 => 0xC5
  | .INVOFF => 0x20
  | .INVON => 0x21
  | .MADCTL => 0x36
  | .COLMOD => 0x3A
  | .CASET => 0x2A
  | .RASET => 0x2B
  | .RAMWR => 0x2C
  | .DISPON => 0x29

/-- `u16::to_be_bytes`: big-endian byte pair of a 16-bit word. -/
def beBytes (w : Nat) : List Nat := [w / 256 % 256, w % 256]

/-- Wrapping 16-bit addition, `sx + self.dx` on `u16`. -/
def addU16 (a b : Nat) : Nat := (a + b) % 65536

/-- `fn write_command(&mut self, command, params)`:
    dc low, write the opcode byte; if params nonempty, dc high and write
    the params. -/
def write_command (ok : Oracle) (command : Instruction) (params : List Nat) :
    M Unit := do
  emit .dcLow
  _ ← spiWriteM ok [command.toByte]
  if params.isEmpty then
    pure ()
  else do
    emit .dcHigh
    _ ← spiWriteM ok params
    pure ()

/-- `fn start_data(&mut self)`: dc high. -/
def start_data : M Unit := emit .dcHigh

/-- `fn write_data(&mut self, data)`: a single SPI write. -/
def write_data (ok : Oracle) (data : List Nat) : M Nat :=
  spiWriteM ok data

/-- `fn write_word(&mut self, value: u16)`: the word's two big-endian
    bytes as one SPI write. -/
def write_word (ok : Oracle) (value : Nat) : M Nat :=
  write_data ok (beBytes value)

/-- The loop of `write_words_buffered`: fill the 32-byte buffer two bytes
    per word, flushing whenever it fills; returns the final buffer and
    index. -/
def wwbLoop (ok : Oracle) (words : List Nat) (buffer : List Nat)
    (index : Nat) : M (List Nat × Nat) :=
  match words with
  | [] => pure (buffer, index)
  | word :: rest =>
      let as_bytes := beBytes word
      let buffer := (buffer.set index (as_bytes.getD 0 0)).set (index + 1)
        (as_bytes.getD 1 0)
      let index := index + 2
      if index ≥ buffer.length then do
        _ ← write_data ok buffer
        wwbLoop ok rest buffer 0
      else
        wwbLoop ok rest buffer index

/-- `fn write_words_buffered(&mut self, words)`: run the loop starting
    from a zeroed 32-byte buffer, then flush the remaining partial buffer
    (`&buffer[0..index]`). -/
def write_words_buffered (ok : Oracle) (words : List Nat) : M Nat := do
  let (buffer, index) ← wwbLoop ok words (List.replicate 32 0) 0
  write_data ok (buffer.take index)

/-- `pub fn hard_reset(&mut self, delay)`: rst high, 10ms, low, 10ms,
    high. -/
def hard_reset : M Unit := do
  emit .rstHigh
  emit (.delayMs 10)
  emit .rstLow
  emit (.delayMs 10)
  emit .rstHigh

/-- `pub fn init(&mut self, delay)`: hard reset, then the fixed command
    sequence with its delays. -/
def init (d : ST7735) (ok : Oracle) : M Unit := do
  hard_reset
  write_command ok .SWRESET []
  emit (.delayMs 200)
  write_command ok .SLPOUT []
  emit (.delayMs 200)
  write_command ok .FRMCTR1 [0x01, 0x2C, 0x2D]
  write_command ok .FRMCTR2 [0x01, 0x2C, 0x2D]
  write_command ok .FRMCTR3 [0x01, 0x2C, 0x2D, 0x01, 0x2C, 0x2D]
  write_command ok .INVCTR [0x07]
  write_command ok .PWCTR1 [0xA2, 0x02, 0x84]
  write_command ok .PWCTR2 [0xC5]
  write_command ok .PWCTR3 [0x0A, 0x00]
  write_command ok .PWCTR4 [0x8A, 0x2A]
  write_command ok .PWCTR5 [0x8A, 0xEE]
  write_command ok .VMCTR1 [0x0E]
  if d.inverted then
    write_command ok .INVON []
  else
    write_command ok .INVOFF []
  if d.rgb then
    write_command ok .MADCTL [0x00]
  else
    write_command ok .MADCTL [0x08]
  write_command ok .COLMOD [0x05]
  write_command ok .DISPON []
  emit (.delayMs 200)

/-- `Orientation`: the four variants with their fixed control bytes. -/
inductive Orientation where
  | Portrait | Landscape | PortraitSwapped | LandscapeSwapped
  deriving DecidableEq, Repr

/-- `orientation as u8`: the discriminant value of each variant. -/
def Orientation.toByte : Orientation → Nat
  | .Portrait => 0x00
  | .Landscape => 0x60
  | .PortraitSwapped => 0xC0
  | .LandscapeSwapped => 0xA0

/-- `pub fn set_orientation(&mut self, orientation)`: MADCTL with the
    orientation byte, OR 0x08 when the wiring is BGR. -/
def set_orientation (d : ST7735) (ok : Oracle) (orientation : Orientation) :
    M Unit := do
  if d.rgb then
    write_command ok .MADCTL [orientation.toByte]
  else
    write_command ok .MADCTL [Nat.lor orientation.toByte 0x08]

/-- `pub fn set_address_window(&mut self, sx, sy, ex, ey)`: CASET then
    the two offset column words, RASET then the two offset row words. -/
def set_address_window (d : ST7735) (ok : Oracle) (sx sy ex ey : Nat) :
    M Nat := do
  write_command ok .CASET []
  start_data
  _ ← write_word ok (addU16 sx d.dx)
  _ ← write_word ok (addU16 ex d.dx)
  write_command ok .RASET []
  start_data
  _ ← write_word ok (addU16 sy d.dy)
  write_word ok (addU16 ey d.dy)

/-- `pub fn set_pixel(&mut self, x, y, color)`: 1×1 window, RAMWR, one
    color word. -/
def set_pixel (d : ST7735) (ok : Oracle) (x y color : Nat) : M Nat := do
  _ ← set_address_window d ok x y x y
  write_command ok .RAMWR []
  start_data
  write_word ok color

/-- `pub fn write_pixels_buffered(&mut self, colors)`: RAMWR then the
    buffered color stream. -/
def write_pixels_buffered (d : ST7735) (ok : Oracle) (colors : List Nat) :
    M Nat := do
  write_command ok .RAMWR []
  start_data
  write_words_buffered ok colors

/-- `pub fn set_pixels_buffered(&mut self, sx, sy, ex, ey, colors)`. -/
def set_pixels_buffered (d : ST7735) (ok : Oracle) (sx sy ex ey : Nat)
    (colors : List Nat) : M Nat := do
  _ ← set_address_window d ok sx sy ex ey
  write_pixels_buffered d ok colors

/-- Level of the dc (mode-select) pin after a trace, given its initial
    level; `true` = high = data, `false` = low = command. -/
def dcLevel (first : Bool) (t : Trace) : Bool :=
  t.foldl (fun s e =>
    match e with
    | .dcLow => false
    | .dcHigh => true
    | _ => s) first

/- ---------------------------------------------------------------------
   Geometry of the external embedded-graphics crate, used by the
   DrawTarget implementation in lib.rs.  These definitions model the
   collaborator crate's `Point`, `Size` and `Rectangle` semantics.
   --------------------------------------------------------------------- -/

/-- embedded-graphics `Point` (two `i32` coordinates). -/
structure Point where
  x : Int
  y : Int
  deriving DecidableEq, Repr

/-- embedded-graphics `Size` (two `u32` dimensions). -/
structure Size where
  width : Nat
  height : Nat
  deriving DecidableEq, Repr

/-- embedded-graphics `Rectangle`. -/
structure Rectangle where
  top_left : Point
  size : Size
  deriving DecidableEq, Repr

/-- `Rectangle::bottom_right`: `None` for a rectangle that is zero-sized
    in either dimension. -/
def Rectangle.bottom_right (r : Rectangle) : Option Point :=
  if r.size.width > 0 ∧ r.size.height > 0 then
    some ⟨r.top_left.x + (r.size.width : Int) - 1,
          r.top_left.y + (r.size.height : Int) - 1⟩
  else
    none

/-- embedded-graphics `Rectangle::contains`. -/
def Rectangle.contains (r : Rectangle) (p : Point) : Bool :=
  if r.top_left.x ≤ p.x ∧ r.top_left.y ≤ p.y then
    match r.bottom_right with
    | some br => decide (p.x ≤ br.x) && decide (p.y ≤ br.y)
    | none => false
  else
    false

/-- Overlap of two half-open `i32` ranges, as embedded-graphics tests it
    when intersecting rectangles. -/
def rangeOverlaps (s1 e1 s2 e2 : Int) : Bool :=
  (decide (s2 ≤ s1) && decide (s1 < e2)) ||
  (decide (s1 ≤ s2) && decide (s2 < e1))

/-- embedded-graphics `Rectangle::with_corners`. -/
def Rectangle.with_corners (c1 c2 : Point) : Rectangle :=
  ⟨⟨min c1.x c2.x, min c1.y c2.y⟩,
   ⟨(c1.x - c2.x).natAbs + 1, (c1.y - c2.y).natAbs + 1⟩⟩

/-- embedded-graphics `Rectangle::intersection`: the overlapping
    rectangle of the two, or a zero-sized rectangle when they do not
    overlap or one of them is zero-sized. -/
def Rectangle.intersection (r other : Rectangle) : Rectangle :=
  match other.bottom_right, r.bottom_right with
  | some obr, some sbr =>
      if rangeOverlaps r.top_left.x (r.top_left.x + (r.size.width : Int))
           other.top_left.x (other.top_left.x + (other.size.width : Int))
         && rangeOverlaps r.top_left.y (r.top_left.y + (r.size.height : Int))
           other.top_left.y (other.top_left.y + (other.size.height : Int))
      then
        Rectangle.with_corners
          ⟨max r.top_left.x other.top_left.x, max r.top_left.y other.top_left.y⟩
          ⟨min sbr.x obr.x, min sbr.y obr.y⟩
      else
        ⟨r.top_left, ⟨0, 0⟩⟩
  | _, _ => ⟨r.top_left, ⟨0, 0⟩⟩

/-- embedded-graphics `Rectangle::points`: all points of the rectangle in
    row-major order (x fastest). -/
def Rectangle.points (r : Rectangle) : List Point :=
  (List.range r.size.height).flatMap fun j =>
    (List.range r.size.width).map fun i =>
      ⟨r.top_left.x + (i : Int), r.top_left.y + (j : Int)⟩

/-- `u32 as i32` cast (two's-complement reinterpretation). -/
def u32ToI32 (w : Nat) : Int :=
  if w % 4294967296 < 2147483648 then ((w % 4294967296 : Nat) : Int)
  else ((w % 4294967296 : Nat) : Int) - 4294967296

/-- `i32 as u16` cast (truncation to the low 16 bits). -/
def i32ToU16 (i : Int) : Nat := (i % 65536).toNat

/- ---------------------------------------------------------------------
   The DrawTarget implementation of lib.rs (feature "graphics").
   Colors are modelled by their raw `u16` value: `RawU16::from(color)
   .into_inner()` is the identity on the stored 16-bit word.
   --------------------------------------------------------------------- -/

/-- `fn draw_iter(&mut self, pixels)`: draw each in-bounds pixel with
    `set_pixel`, silently skipping out-of-bounds coordinates. -/
def draw_iter (d : ST7735) (ok : Oracle) (pixels : List (Point × Nat)) :
    M Unit :=
  match pixels with
  | [] => pure ()
  | (coord, color) :: rest => do
      if 0 ≤ coord.x ∧ 0 ≤ coord.y ∧ coord.x < u32ToI32 d.width ∧
          coord.y < u32ToI32 d.height then
        _ ← set_pixel d ok (i32ToU16 coord.x) (i32ToU16 coord.y) color
        draw_iter d ok rest
      else
        draw_iter d ok rest

/-- `fn fill_contiguous(&mut self, area, colors)`: clamp the area to the
    panel; if the drawable area is non-empty, set the window to it and
    stream the colors whose point the drawable area contains. -/
def fill_contiguous (d : ST7735) (ok : Oracle) (area : Rectangle)
    (colors : List Nat) : M Unit := do
  let drawable_area := area.intersection ⟨⟨0, 0⟩, ⟨d.width, d.height⟩⟩
  if drawable_area.size ≠ ⟨0, 0⟩ then
    _ ← set_pixels_buffered d ok
      (i32ToU16 drawable_area.top_left.x)
      (i32ToU16 drawable_area.top_left.y)
      (i32ToU16 (drawable_area.top_left.x + u32ToI32 (drawable_area.size.width - 1)))
      (i32ToU16 (drawable_area.top_left.y + u32ToI32 (drawable_area.size.height - 1)))
      (((area.points.zip colors).filter fun pc =>
          drawable_area.contains pc.1).map fun pc => pc.2)
    pure ()
  else
    pure ()

/-- `fn clear(&mut self, color)`: full-panel window,
    `width * height` copies of the color. -/
def clear (d : ST7735) (ok : Oracle) (color : Nat) : M Unit := do
  _ ← set_pixels_buffered d ok 0 0 (d.width % 65536 - 1) (d.height % 65536 - 1)
      (List.replicate (d.width * d.height) color)
  pure ()

/-- The byte chunks of the SPI writes in a trace, in order. -/
def spiChunks (t : Trace) : List (List Nat) :=
  t.filterMap fun e =>
    match e with
    | .spiWrite bytes => some bytes
    | _ => none

/-- The bus-write layout the spec describes for buffered streaming of
    `words` (amended): `⌊N/16⌋` full 32-byte chunks of the big-endian
    byte stream, then one final chunk holding the remaining
    `(N mod 16) * 2` bytes (empty when `16 ∣ N`). -/
def specChunks (words : List Nat) : List (List Nat) :=
  (List.range (words.length / 16)).map
    (fun i => ((words.flatMap beBytes).drop (32 * i)).take 32)
  ++ [(words.flatMap beBytes).drop (32 * (words.length / 16))]

/-- The buffer positions at which the loop of `write_words_buffered`
    stores the first byte of each successive word (success path). -/
def wwbIndices : List Nat → Nat → List Nat
  | [], _ => []
  | _ :: rest, index =>
      index ::
        (if index + 2 ≥ 32 then wwbIndices rest 0
         else wwbIndices rest (index + 2))

/- ---------------------------------------------------------------------
   Run lemmas for the monad.
   --------------------------------------------------------------------- -/

theorem bind_run {α β : Type} (x : M α) (f : α → M β) (n : Nat) :
    (x >>= f) n =
      match x n with
      | (t, n', some a) =>
          match f a n' with
          | (t', n'', r) => (t ++ t', n'', r)
      | (t, n', none) => (t, n', none) := rfl

theorem pure_run {α : Type} (a : α) (n : Nat) :
    (pure a : M α) n = ([], n, some a) := rfl

theorem emit_run (e : Event) (n : Nat) : emit e n = ([e], n, some ()) := rfl

theorem spiWriteM_run (ok : Oracle) (bytes : List Nat) (n : Nat) :
    spiWriteM ok bytes n =
      if ok n then ([Event.spiWrite bytes], n + 1, some bytes.length)
      else ([], n + 1, none) := rfl

/- ---------------------------------------------------------------------
   C1: the command/parameter framing of write_command.
   --------------------------------------------------------------------- -/

/-- C1: `write_command` drives dc low and writes exactly the one opcode
    byte; iff the parameter list is non-empty it then drives dc high and
    writes the parameter bytes in order; with no parameters the stream is
    the single opcode byte and dc stays low throughout (final level low
    from any initial level). -/
theorem write_command_framing (cmd : Instruction) (params : List Nat)
    (n : Nat) (first : Bool) :
    write_command allOk cmd params n =
      ((if params.isEmpty then
          [Event.dcLow, Event.spiWrite [cmd.toByte]]
        else
          [Event.dcLow, Event.spiWrite [cmd.toByte], Event.dcHigh,
           Event.spiWrite params]),
       (if params.isEmpty then n + 1 else n + 2), some ())
    ∧ dcLevel first (write_command allOk cmd params n).1 = !params.isEmpty := by
  cases params <;> exact ⟨rfl, rfl⟩

/- ---------------------------------------------------------------------
   C3: set_address_window.
   --------------------------------------------------------------------- -/

/-- C3: for all coordinates and stored offset, `set_address_window`
    transmits CASET followed by the 16-bit words `sx+dx` and `ex+dx`,
    then RASET followed by `sy+dy` and `ey+dy`, each word big-endian
    (high byte first), succeeding for every input (no bounds
    validation). -/
theorem set_address_window_protocol (d : ST7735) (sx sy ex ey n : Nat) :
    set_address_window d allOk sx sy ex ey n =
      ([Event.dcLow, Event.spiWrite [Instruction.CASET.toByte], Event.dcHigh,
        Event.spiWrite [addU16 sx d.dx / 256 % 256, addU16 sx d.dx % 256],
        Event.spiWrite [addU16 ex d.dx / 256 % 256, addU16 ex d.dx % 256],
        Event.dcLow, Event.spiWrite [Instruction.RASET.toByte], Event.dcHigh,
        Event.spiWrite [addU16 sy d.dy / 256 % 256, addU16 sy d.dy % 256],
        Event.spiWrite [addU16 ey d.dy / 256 % 256, addU16 ey d.dy % 256]],
       n + 6, some 2) := rfl

/- ---------------------------------------------------------------------
   C5: set_orientation.
   --------------------------------------------------------------------- -/

/-- C5: for every orientation variant, `set_orientation` sends MADCTL
    with exactly one parameter byte: the variant's fixed control byte
    unmodified for RGB wiring, that byte OR 0x08 for BGR wiring; nothing
    else is transmitted. -/
theorem set_orientation_byte (d : ST7735) (o : Orientation) (n : Nat) :
    set_orientation d allOk o n =
      ([Event.dcLow, Event.spiWrite [Instruction.MADCTL.toByte], Event.dcHigh,
        Event.spiWrite [if d.rgb then o.toByte else Nat.lor o.toByte 0x08]],
       n + 2, some ()) := by
  rcases d with ⟨rgb, inverted, dx, dy, width, height⟩
  cases rgb <;> rfl

/- ---------------------------------------------------------------------
   C4: the initialization sequence.
   --------------------------------------------------------------------- -/

/-- C4: `init` performs, in exactly this order: hard reset (rst high,
    10ms, low, 10ms, high), SWRESET + 200ms, SLPOUT + 200ms, the three
    frame-rate commands, inversion control, the five power-control
    commands and VCOM control with their fixed parameters, INVON/INVOFF
    by the `inverted` flag, MADCTL 0x00 (RGB) or 0x08 (BGR), COLMOD 0x05
    (16-bit/pixel), and DISPON + 200ms. -/
theorem init_sequence (d : ST7735) (n : Nat) :
    init d allOk n =
      ([Event.rstHigh, Event.delayMs 10, Event.rstLow, Event.delayMs 10,
        Event.rstHigh,
        Event.dcLow, Event.spiWrite [Instruction.SWRESET.toByte],
        Event.delayMs 200,
        Event.dcLow, Event.spiWrite [Instruction.SLPOUT.toByte],
        Event.delayMs 200,
        Event.dcLow, Event.spiWrite [Instruction.FRMCTR1.toByte],
        Event.dcHigh, Event.spiWrite [0x01, 0x2C, 0x2D],
        Event.dcLow, Event.spiWrite [Instruction.FRMCTR2.toByte],
        Event.dcHigh, Event.spiWrite [0x01, 0x2C, 0x2D],
        Event.dcLow, Event.spiWrite [Instruction.FRMCTR3.toByte],
        Event.dcHigh, Event.spiWrite [0x01, 0x2C, 0x2D, 0x01, 0x2C, 0x2D],
        Event.dcLow, Event.spiWrite [Instruction.INVCTR.toByte],
        Event.dcHigh, Event.spiWrite [0x07],
        Event.dcLow, Event.spiWrite [Instruction.PWCTR1.toByte],
        Event.dcHigh, Event.spiWrite [0xA2, 0x02, 0x84],
        Event.dcLow, Event.spiWrite [Instruction.PWCTR2.toByte],
        Event.dcHigh, Event.spiWrite [0xC5],
        Event.dcLow, Event.spiWrite [Instruction.PWCTR3.toByte],
        Event.dcHigh, Event.spiWrite [0x0A, 0x00],
        Event.dcLow, Event.spiWrite [Instruction.PWCTR4.toByte],
        Event.dcHigh, Event.spiWrite [0x8A, 0x2A],
        Event.dcLow, Event.spiWrite [Instruction.PWCTR5.toByte],
        Event.dcHigh, Event.spiWrite [0x8A, 0xEE],
        Event.dcLow, Event.spiWrite [Instruction.VMCTR1.toByte],
        Event.dcHigh, Event.spiWrite [0x0E],
        Event.dcLow,
        Event.spiWrite [if d.inverted then Instruction.INVON.toByte
                        else Instruction.INVOFF.toByte],
        Event.dcLow, Event.spiWrite [Instruction.MADCTL.toByte],
        Event.dcHigh, Event.spiWrite [if d.rgb then 0x00 else 0x08],
        Event.dcLow, Event.spiWrite [Instruction.COLMOD.toByte],
        Event.dcHigh, Event.spiWrite [0x05],
        Event.dcLow, Event.spiWrite [Instruction.DISPON.toByte],
        Event.delayMs 200],
       n + 28, some ()) := by
  rcases d with ⟨rgb, inverted, dx, dy, width, height⟩
  cases rgb <;> cases inverted <;> rfl

/- ---------------------------------------------------------------------
   C6: failure behavior of write_command.
   --------------------------------------------------------------------- -/

/-- C6 counterexample: when the very first bus write (the opcode byte)
    fails, `write_command` fails but the mode-select line is left LOW
    (command state), not in the data state — even if it was high before
    the call. -/
theorem write_command_failure_dc_counterexample :
    write_command (fun _ => false) Instruction.MADCTL [0x00] 0 =
      ([Event.dcLow], 1, none) ∧
    dcLevel true [Event.dcLow] = false := ⟨rfl, rfl⟩

/-- C6 (amended): whenever a bus write inside `write_command` fails, the
    call fails with the bus error and no retry is attempted (each write
    is attempted at most once); the mode-select line is left as last set:
    low (command) if the opcode write failed, high (data) if a parameter
    write failed. -/
theorem write_command_failure_dc (ok : Oracle) (cmd : Instruction)
    (params : List Nat) (n n' : Nat) (t : Trace) (first : Bool)
    (h : write_command ok cmd params n = (t, n', none)) :
    (ok n = false → t = [Event.dcLow] ∧ n' = n + 1 ∧
      dcLevel first t = false) ∧
    (ok n = true →
      t = [Event.dcLow, Event.spiWrite [cmd.toByte], Event.dcHigh] ∧
      n' = n + 2 ∧ params.isEmpty = false ∧ dcLevel first t = true) := by
  cases hok : ok n with
  | false =>
      have hw : write_command ok cmd params n = ([Event.dcLow], n + 1, none) := by
        unfold write_command
        simp [bind_run, emit_run, spiWriteM_run, hok]
      rw [h] at hw
      simp only [Prod.ext_iff] at hw
      obtain ⟨ht, hn, -⟩ := hw
      subst ht
      exact ⟨fun _ => ⟨rfl, hn, rfl⟩, fun hc => by simp [hok] at hc⟩
  | true =>
      refine ⟨fun hc => by simp [hok] at hc, fun _ => ?_⟩
      cases params with
      | nil =>
          have hw : write_command ok cmd [] n =
              ([Event.dcLow, Event.spiWrite [cmd.toByte]], n + 1, some ()) := by
            unfold write_command
            simp [bind_run, emit_run, spiWriteM_run, pure_run, hok]
          rw [h] at hw
          simp [Prod.ext_iff] at hw
      | cons p ps =>
          cases hok2 : ok (n + 1) with
          | false =>
              have hw : write_command ok cmd (p :: ps) n =
                  ([Event.dcLow, Event.spiWrite [cmd.toByte], Event.dcHigh],
                   n + 2, none) := by
                unfold write_command
                simp [bind_run, emit_run, spiWriteM_run, pure_run, hok, hok2]
              rw [h] at hw
              simp only [Prod.ext_iff] at hw
              obtain ⟨ht, hn, -⟩ := hw
              subst ht
              exact ⟨rfl, hn, rfl, rfl⟩
          | true =>
              have hw : write_command ok cmd (p :: ps) n =
                  ([Event.dcLow, Event.spiWrite [cmd.toByte], Event.dcHigh,
                    Event.spiWrite (p :: ps)], n + 2, some ()) := by
                unfold write_command
                simp [bind_run, emit_run, spiWriteM_run, pure_run, hok, hok2]
              rw [h] at hw
              simp [Prod.ext_iff] at hw

/-- Witness for C6 (amended): a parameter-write failure on MADCTL with
    one parameter leaves dc high (data). -/
theorem write_command_failure_dc_witness :
    [Event.dcLow, Event.spiWrite [Instruction.MADCTL.toByte], Event.dcHigh] =
      [Event.dcLow, Event.spiWrite [Instruction.MADCTL.toByte], Event.dcHigh] ∧
    (2 : Nat) = 0 + 2 ∧ List.isEmpty [(0x00 : Nat)] = false ∧
    dcLevel false
      [Event.dcLow, Event.spiWrite [Instruction.MADCTL.toByte], Event.dcHigh] =
      true :=
  (write_command_failure_dc (fun k => decide (k = 0)) Instruction.MADCTL
    [0x00] 0 2
    [Event.dcLow, Event.spiWrite [Instruction.MADCTL.toByte], Event.dcHigh]
    false rfl).2 rfl

/- ---------------------------------------------------------------------
   Machinery for write_words_buffered (C2, C9, C10).
   --------------------------------------------------------------------- -/

theorem wwbLoop_nil (ok : Oracle) (buffer : List Nat) (index : Nat) :
    wwbLoop ok [] buffer index = pure (buffer, index) := rfl

theorem wwbLoop_cons (ok : Oracle) (word : Nat) (rest : List Nat)
    (buffer : List Nat) (index : Nat) :
    wwbLoop ok (word :: rest) buffer index =
      (let b := (buffer.set index ((beBytes word).getD 0 0)).set (index + 1)
        ((beBytes word).getD 1 0)
      if index + 2 ≥ b.length then do
        _ ← write_data ok b
        wwbLoop ok rest b 0
      else wwbLoop ok rest b (index + 2)) := rfl

theorem length_flatMap_beBytes (words : List Nat) :
    (words.flatMap beBytes).length = 2 * words.length := by
  induction words with
  | nil => rfl
  | cons w rest ih =>
      simp only [List.flatMap_cons, List.length_append, List.length_cons, ih,
        beBytes, List.length_nil]
      omega

theorem set_two_eq_splice : ∀ (buffer : List Nat) (index hi lo : Nat),
    index + 1 < buffer.length →
    (buffer.set index hi).set (index + 1) lo =
      buffer.take index ++ hi :: lo :: buffer.drop (index + 2) := by
  intro buffer
  induction buffer with
  | nil => intro index hi lo h; simp at h
  | cons b bs ih =>
      intro index hi lo h
      cases index with
      | zero =>
          cases bs with
          | nil => simp at h
          | cons c cs => rfl
      | succ i =>
          simp only [List.set_cons_succ, List.take_succ_cons,
            List.drop_succ_cons, List.cons_append]
          rw [ih i hi lo (by simpa using Nat.lt_of_succ_lt_succ h)]

theorem chunks_flatten (l : List Nat) : ∀ k : Nat,
    ((List.range k).map fun i => (l.drop (32 * i)).take 32).flatten =
      l.take (32 * k) := by
  intro k
  induction k with
  | zero => simp
  | succ k ih =>
      rw [List.range_succ, List.map_append, List.flatten_append, ih]
      rw [show 32 * (k + 1) = 32 * k + 32 by ring, List.take_add]
      simp

theorem wwbLoop_run : ∀ (words : List Nat) (buffer : List Nat) (index n : Nat),
    buffer.length = 32 → index % 2 = 0 → index < 32 →
    ∃ buffer' : List Nat,
      wwbLoop allOk words buffer index n =
        (((List.range ((index + 2 * words.length) / 32)).map fun i =>
            Event.spiWrite
              (((buffer.take index ++ words.flatMap beBytes).drop (32 * i)).take 32)),
         n + (index + 2 * words.length) / 32,
         some (buffer', (index + 2 * words.length) % 32)) ∧
      buffer'.length = 32 ∧
      buffer'.take ((index + 2 * words.length) % 32) =
        (buffer.take index ++ words.flatMap beBytes).drop
          (32 * ((index + 2 * words.length) / 32)) := by
  intro words
  induction words with
  | nil =>
      intro buffer index n hlen hev hlt
      refine ⟨buffer, ?_, hlen, ?_⟩
      · simp only [wwbLoop_nil, pure_run, List.flatMap_nil, List.append_nil,
          List.length_nil, Nat.mul_zero, Nat.add_zero]
        rw [Nat.div_eq_of_lt (by omega), Nat.mod_eq_of_lt (by omega)]
        simp
      · simp only [List.flatMap_nil, List.append_nil, List.length_nil,
          Nat.mul_zero, Nat.add_zero]
        rw [Nat.div_eq_of_lt (by omega), Nat.mod_eq_of_lt (by omega)]
        simp
  | cons word rest ih =>
      intro buffer index n hlen hev hlt
      have hsplice := set_two_eq_splice buffer index ((beBytes word).getD 0 0)
        ((beBytes word).getD 1 0) (by omega)
      have hB2len : ((buffer.set index ((beBytes word).getD 0 0)).set (index + 1)
          ((beBytes word).getD 1 0)).length = 32 := by simp [hlen]
      rcases Nat.lt_or_ge (index + 2) 32 with hc | hc
      · -- no flush: recurse with index + 2
        obtain ⟨buffer', htr, hblen, htake⟩ :=
          ih ((buffer.set index ((beBytes word).getD 0 0)).set (index + 1)
            ((beBytes word).getD 1 0)) (index + 2) n hB2len (by omega) (by omega)
        have hS : ((buffer.set index ((beBytes word).getD 0 0)).set (index + 1)
            ((beBytes word).getD 1 0)).take (index + 2) =
            buffer.take index ++ beBytes word := by
          rw [hsplice]
          rw [show index + 2 = (buffer.take index).length + 2 by
            simp [List.length_take]; omega]
          rw [List.take_append]
          rfl
        have harith : index + 2 + 2 * rest.length = index + 2 * (word :: rest).length := by
          simp [List.length_cons]; ring
        rw [hS, harith] at htr htake
        rw [show (buffer.take index ++ beBytes word) ++ rest.flatMap beBytes =
            buffer.take index ++ (word :: rest).flatMap beBytes by
          simp [List.flatMap_cons, List.append_assoc]] at htr htake
        refine ⟨buffer', ?_, hblen, htake⟩
        rw [wwbLoop_cons]
        simp only [hB2len]
        rw [if_neg (by omega)]
        exact htr
      · -- flush: index = 30
        have h30 : index = 30 := by omega
        subst h30
        have hdrop : buffer.drop (30 + 2) = [] := by
          rw [show (30 + 2 : Nat) = buffer.length by omega, List.drop_length]
        obtain ⟨buffer', htr, hblen, htake⟩ :=
          ih ((buffer.set 30 ((beBytes word).getD 0 0)).set (30 + 1)
            ((beBytes word).getD 1 0)) 0 (n + 1) hB2len rfl (by omega)
        simp only [List.take_zero, List.nil_append, Nat.zero_add] at htr htake
        have hSfull : buffer.take 30 ++ (word :: rest).flatMap beBytes =
            ((buffer.set 30 ((beBytes word).getD 0 0)).set (30 + 1)
              ((beBytes word).getD 1 0)) ++ rest.flatMap beBytes := by
          rw [hsplice, hdrop]
          simp [List.flatMap_cons, beBytes, List.getD_cons_zero,
            List.getD_cons_succ]
        have harith : 30 + 2 * (word :: rest).length = 32 + 2 * rest.length := by
          simp only [List.length_cons]; ring
        have hdiv : (32 + 2 * rest.length) / 32 = 2 * rest.length / 32 + 1 := by
          omega
        have hmod : (32 + 2 * rest.length) % 32 = 2 * rest.length % 32 := by
          omega
        have hT : ((List.range ((30 + 2 * (word :: rest).length) / 32)).map fun i =>
              Event.spiWrite
                (((buffer.take 30 ++ (word :: rest).flatMap beBytes).drop (32 * i)).take 32)) =
            Event.spiWrite ((buffer.set 30 ((beBytes word).getD 0 0)).set (30 + 1)
                ((beBytes word).getD 1 0)) ::
              ((List.range (2 * rest.length / 32)).map fun i =>
                Event.spiWrite (((rest.flatMap beBytes).drop (32 * i)).take 32)) := by
          rw [harith, hdiv, hSfull, List.range_succ_eq_map, List.map_cons,
            List.map_map]
          congr 1
          · rw [Nat.mul_zero, List.drop_zero, ← hB2len, List.take_left]
          · refine List.map_congr_left fun i hi => ?_
            simp only [Function.comp_apply, Nat.succ_eq_add_one]
            rw [show 32 * (i + 1) =
                ((buffer.set 30 ((beBytes word).getD 0 0)).set (30 + 1)
                  ((beBytes word).getD 1 0)).length + 32 * i by
              rw [hB2len]; ring]
            rw [List.drop_append]
        refine ⟨buffer', ?_, hblen, ?_⟩
        · rw [wwbLoop_cons]
          simp only [hB2len]
          rw [if_pos (by omega)]
          rw [bind_run]
          simp only [write_data, spiWriteM_run, allOk, if_true]
          rw [htr]
          rw [hT]
          simp only [harith, hdiv]
          simp [Nat.add_assoc, Nat.add_comm 1 (2 * rest.length / 32)]
        · rw [harith, hdiv, hmod, htake, hSfull]
          rw [Nat.mul_add, Nat.mul_one, Nat.add_comm (32 * (2 * rest.length / 32)) 32]
          rw [show (32 : Nat) = ((buffer.set 30 ((beBytes word).getD 0 0)).set (30 + 1)
              ((beBytes word).getD 1 0)).length from hB2len.symm]
          rw [List.drop_append]

/-- Full characterization of `write_words_buffered` on a reliable bus:
    the exact bus-write layout `specChunks`, the write count, and the
    returned byte count of the final flush. -/
theorem write_words_buffered_run (words : List Nat) (n : Nat) :
    write_words_buffered allOk words n =
      ((specChunks words).map Event.spiWrite,
       n + words.length / 16 + 1, some (2 * (words.length % 16))) := by
  obtain ⟨buffer', htr, hblen, htake⟩ :=
    wwbLoop_run words (List.replicate 32 0) 0 n (by simp) rfl (by omega)
  simp only [List.take_zero, List.nil_append, Nat.zero_add] at htr htake
  have hdiv : 2 * words.length / 32 = words.length / 16 := by omega
  have hmod : 2 * words.length % 32 = 2 * (words.length % 16) := by omega
  have hlast : (buffer'.take (2 * words.length % 32)).length =
      2 * (words.length % 16) := by
    rw [htake, List.length_drop, length_flatMap_beBytes]
    omega
  unfold write_words_buffered
  rw [bind_run, htr]
  simp only [write_data, spiWriteM_run, allOk, if_true]
  rw [hlast, htake, hdiv]
  simp [specChunks, List.map_map, Function.comp]

theorem specChunks_length (words : List Nat) :
    (specChunks words).length = words.length / 16 + 1 := by
  simp [specChunks]

theorem specChunks_flatten (words : List Nat) :
    (specChunks words).flatten = words.flatMap beBytes := by
  unfold specChunks
  rw [List.flatten_append, chunks_flatten]
  simp only [List.flatten_cons, List.flatten_nil, List.append_nil]
  exact List.take_append_drop _ _

theorem specChunks_last (words : List Nat) :
    ((specChunks words).getLast?).map List.length =
      some (2 * (words.length % 16)) := by
  unfold specChunks
  rw [List.getLast?_concat]
  simp only [Option.map_some']
  rw [List.length_drop, length_flatMap_beBytes]
  congr 1
  omega

theorem specChunks_dropLast (words : List Nat) :
    ∀ c ∈ (specChunks words).dropLast, c.length = 32 := by
  unfold specChunks
  rw [List.dropLast_concat]
  intro c hc
  obtain ⟨i, hi, rfl⟩ := List.mem_map.mp hc
  rw [List.mem_range] at hi
  rw [List.length_take, List.length_drop, length_flatMap_beBytes]
  have hle : words.length / 16 * 16 ≤ words.length := Nat.div_mul_le_self _ _
  omega

/-- C2 (amended): buffered streaming of N colors produces
    `⌊N/16⌋ + 1` bus-write calls — `⌊N/16⌋` full 32-byte calls followed
    by one final call of `(N mod 16)*2` bytes, which is empty when
    `N mod 16 = 0` (including N = 0) — and the concatenation of all
    calls' bytes equals the big-endian concatenation of the N colors in
    input order. -/
theorem write_words_buffered_stream (words : List Nat) (n : Nat) :
    write_words_buffered allOk words n =
      ((specChunks words).map Event.spiWrite,
       n + words.length / 16 + 1, some (2 * (words.length % 16))) ∧
    (specChunks words).length = words.length / 16 + 1 ∧
    (specChunks words).flatten = words.flatMap beBytes ∧
    ((specChunks words).getLast?).map List.length =
      some (2 * (words.length % 16)) ∧
    ∀ c ∈ (specChunks words).dropLast, c.length = 32 :=
  ⟨write_words_buffered_run words n, specChunks_length words,
   specChunks_flatten words, specChunks_last words, specChunks_dropLast words⟩

/-- C2 counterexample: streaming exactly 16 colors (one full buffer)
    produces TWO bus-write calls — a 32-byte call and then an empty
    final flush — not `⌈16/16⌉ = 1` single full 32-byte call as the
    claim states. -/
theorem write_words_buffered_full_buffer_counterexample :
    (spiChunks (write_words_buffered allOk (List.replicate 16 0x1234) 0).1).length
      = 2 ∧
    (spiChunks (write_words_buffered allOk (List.replicate 16 0x1234) 0).1).getLast?
      = some [] ∧
    (16 + 16 - 1) / 16 = 1 := by decide

/- ---------------------------------------------------------------------
   C10: in-bounds buffer accesses and bounded bus writes.
   --------------------------------------------------------------------- -/

theorem wwbIndices_inv (words : List Nat) : ∀ index : Nat,
    index % 2 = 0 → index ≤ 30 →
    ∀ i ∈ wwbIndices words index, i % 2 = 0 ∧ i + 1 < 32 := by
  induction words with
  | nil => intro index _ _ i hi; simp [wwbIndices] at hi
  | cons w rest ih =>
      intro index hev hle i hi
      simp only [wwbIndices, List.mem_cons] at hi
      rcases hi with rfl | hi
      · exact ⟨hev, by omega⟩
      · rcases Nat.lt_or_ge (index + 2) 32 with hc | hc
        · rw [if_neg (by omega)] at hi
          exact ih (index + 2) (by omega) (by omega) i hi
        · rw [if_pos (by omega)] at hi
          exact ih 0 rfl (by omega) i hi

theorem wwbLoop_sizes (ok : Oracle) : ∀ (words : List Nat)
    (buffer : List Nat) (index n : Nat), buffer.length = 32 →
    (∀ c ∈ spiChunks (wwbLoop ok words buffer index n).1, c.length = 32) ∧
    (∀ b' i', (wwbLoop ok words buffer index n).2.2 = some (b', i') →
      b'.length = 32) := by
  intro words
  induction words with
  | nil =>
      intro buffer index n hlen
      refine ⟨?_, ?_⟩
      · intro c hc; simp [wwbLoop_nil, pure_run, spiChunks] at hc
      · intro b' i' h
        simp only [wwbLoop_nil, pure_run, Option.some.injEq, Prod.mk.injEq] at h
        rw [← h.1]; exact hlen
  | cons word rest ih =>
      intro buffer index n hlen
      have hB2len : ((buffer.set index ((beBytes word).getD 0 0)).set (index + 1)
          ((beBytes word).getD 1 0)).length = 32 := by simp [hlen]
      rcases Nat.lt_or_ge (index + 2) 32 with hc | hc
      · rw [wwbLoop_cons]
        simp only [hB2len]
        rw [if_neg (by omega)]
        exact ih ((buffer.set index ((beBytes word).getD 0 0)).set
          (index + 1) ((beBytes word).getD 1 0)) (index + 2) n hB2len
      · obtain ⟨ihc, ihr⟩ := ih ((buffer.set index ((beBytes word).getD 0 0)).set
          (index + 1) ((beBytes word).getD 1 0)) 0 (n + 1) hB2len
        rcases hrec : wwbLoop ok rest ((buffer.set index ((beBytes word).getD 0 0)).set
          (index + 1) ((beBytes word).getD 1 0)) 0 (n + 1) with ⟨t1, n1, r1⟩
        rw [hrec] at ihc ihr
        simp only at ihc ihr
        cases hok : ok n with
        | false =>
            have hfin : wwbLoop ok (word :: rest) buffer index n =
                ([], n + 1, none) := by
              rw [wwbLoop_cons]
              simp only [hB2len]
              rw [if_pos (by omega), bind_run]
              simp only [write_data, spiWriteM_run, hok, Bool.false_eq_true,
                if_false]
            rw [hfin]
            exact ⟨fun c hc => by simp [spiChunks] at hc,
              fun b' i' h => by simp at h⟩
        | true =>
            have hfin : wwbLoop ok (word :: rest) buffer index n =
                (Event.spiWrite ((buffer.set index ((beBytes word).getD 0 0)).set
                  (index + 1) ((beBytes word).getD 1 0)) :: t1, n1, r1) := by
              rw [wwbLoop_cons]
              simp only [hB2len]
              rw [if_pos (by omega), bind_run]
              simp only [write_data, spiWriteM_run, hok, eq_self_iff_true,
                if_true, hrec, List.singleton_append]
            rw [hfin]
            refine ⟨?_, ?_⟩
            · intro c hc
              simp only [spiChunks, List.filterMap_cons] at hc
              rcases (List.mem_cons).mp hc with rfl | hc2
              · exact hB2len
              · exact ihc c hc2
            · exact ihr

theorem spiChunks_append (t1 t2 : Trace) :
    spiChunks (t1 ++ t2) = spiChunks t1 ++ spiChunks t2 :=
  List.filterMap_append t1 t2 _

/-- C10: in `write_words_buffered`, at the moment a color word is stored
    the buffer index is always even and at most 30, so both byte stores
    (`buffer[index]`, `buffer[index+1]`) hit positions `< 32` of the
    32-byte buffer; and every bus write the function issues carries at
    most 32 bytes (for any bus-failure pattern). -/
theorem write_words_buffered_safety (words : List Nat) (ok : Oracle) (n : Nat) :
    (∀ i ∈ wwbIndices words 0, i % 2 = 0 ∧ i ≤ 30 ∧ i + 1 < 32) ∧
    (∀ c ∈ spiChunks (write_words_buffered ok words n).1, c.length ≤ 32) := by
  constructor
  · intro i hi
    obtain ⟨h1, h2⟩ := wwbIndices_inv words 0 rfl (by omega) i hi
    exact ⟨h1, by omega, h2⟩
  obtain ⟨ihc, ihr⟩ := wwbLoop_sizes ok words (List.replicate 32 0) 0 n (by simp)
  rcases hrec : wwbLoop ok words (List.replicate 32 0) 0 n with ⟨t1, n1, r1⟩
  rw [hrec] at ihc ihr
  simp only at ihc ihr
  cases r1 with
  | none =>
      have hfin : write_words_buffered ok words n = (t1, n1, none) := by
        unfold write_words_buffered
        rw [bind_run, hrec]
      rw [hfin]
      exact fun c hc => le_of_eq (ihc c hc)
  | some p =>
      obtain ⟨b', i'⟩ := p
      have hblen : b'.length = 32 := ihr b' i' rfl
      cases hok : ok n1 with
      | false =>
          have hfin : write_words_buffered ok words n = (t1 ++ [], n1 + 1, none) := by
            unfold write_words_buffered
            rw [bind_run, hrec]
            simp only [write_data, spiWriteM_run, hok, Bool.false_eq_true,
              if_false]
          rw [hfin]
          intro c hc
          rw [List.append_nil] at hc
          exact le_of_eq (ihc c hc)
      | true =>
          have hfin : write_words_buffered ok words n =
              (t1 ++ [Event.spiWrite (b'.take i')], n1 + 1,
               some (b'.take i').length) := by
            unfold write_words_buffered
            rw [bind_run, hrec]
            simp only [write_data, spiWriteM_run, hok, eq_self_iff_true,
              if_true]
          rw [hfin]
          intro c hc
          rw [spiChunks_append] at hc
          rcases List.mem_append.mp hc with h1 | h2
          · exact le_of_eq (ihc c h1)
          · have hce : c = b'.take i' := by simpa [spiChunks] using h2
            rw [hce, List.length_take]
            omega

/- ---------------------------------------------------------------------
   C9: clear.
   --------------------------------------------------------------------- -/

theorem write_pixels_buffered_run (d : ST7735) (colors : List Nat) (n : Nat) :
    write_pixels_buffered d allOk colors n =
      ([Event.dcLow, Event.spiWrite [Instruction.RAMWR.toByte], Event.dcHigh]
        ++ (specChunks colors).map Event.spiWrite,
       n + 2 + colors.length / 16, some (2 * (colors.length % 16))) := by
  unfold write_pixels_buffered start_data
  rw [bind_run, show write_command allOk Instruction.RAMWR [] n =
      ([Event.dcLow, Event.spiWrite [Instruction.RAMWR.toByte]], n + 1, some ())
    from rfl]
  simp only [bind_run, emit_run, write_words_buffered_run]
  rw [Prod.ext_iff, Prod.ext_iff]
  refine ⟨by simp, by simp; omega, rfl⟩

theorem set_pixels_buffered_run (d : ST7735) (sx sy ex ey n : Nat)
    (colors : List Nat) :
    set_pixels_buffered d allOk sx sy ex ey colors n =
      ([Event.dcLow, Event.spiWrite [Instruction.CASET.toByte], Event.dcHigh,
        Event.spiWrite (beBytes (addU16 sx d.dx)),
        Event.spiWrite (beBytes (addU16 ex d.dx)),
        Event.dcLow, Event.spiWrite [Instruction.RASET.toByte], Event.dcHigh,
        Event.spiWrite (beBytes (addU16 sy d.dy)),
        Event.spiWrite (beBytes (addU16 ey d.dy)),
        Event.dcLow, Event.spiWrite [Instruction.RAMWR.toByte], Event.dcHigh]
       ++ (specChunks colors).map Event.spiWrite,
       n + 8 + colors.length / 16, some (2 * (colors.length % 16))) := by
  unfold set_pixels_buffered
  rw [bind_run, show set_address_window d allOk sx sy ex ey n =
      ([Event.dcLow, Event.spiWrite [Instruction.CASET.toByte], Event.dcHigh,
        Event.spiWrite (beBytes (addU16 sx d.dx)),
        Event.spiWrite (beBytes (addU16 ex d.dx)),
        Event.dcLow, Event.spiWrite [Instruction.RASET.toByte], Event.dcHigh,
        Event.spiWrite (beBytes (addU16 sy d.dy)),
        Event.spiWrite (beBytes (addU16 ey d.dy))], n + 6, some 2) from rfl]
  simp only [write_pixels_buffered_run]
  rw [Prod.ext_iff, Prod.ext_iff]
  refine ⟨by simp, by simp, rfl⟩

/-- C9: for every color and panel W×H (within the u16-addressable
    range), `clear` issues exactly one window-set covering
    (0,0)-(W-1,H-1) followed by the buffered stream whose bytes are
    exactly W*H repetitions of the big-endian color word. -/
theorem clear_full_panel (d : ST7735) (c n : Nat)
    (hW1 : 0 < d.width) (hW2 : d.width ≤ 65535)
    (hH1 : 0 < d.height) (hH2 : d.height ≤ 65535) :
    clear d allOk c n =
      ([Event.dcLow, Event.spiWrite [Instruction.CASET.toByte], Event.dcHigh,
        Event.spiWrite (beBytes (addU16 0 d.dx)),
        Event.spiWrite (beBytes (addU16 (d.width - 1) d.dx)),
        Event.dcLow, Event.spiWrite [Instruction.RASET.toByte], Event.dcHigh,
        Event.spiWrite (beBytes (addU16 0 d.dy)),
        Event.spiWrite (beBytes (addU16 (d.height - 1) d.dy)),
        Event.dcLow, Event.spiWrite [Instruction.RAMWR.toByte], Event.dcHigh]
       ++ (specChunks (List.replicate (d.width * d.height) c)).map Event.spiWrite,
       n + 8 + d.width * d.height / 16, some ()) ∧
    (specChunks (List.replicate (d.width * d.height) c)).flatten =
      (List.replicate (d.width * d.height) c).flatMap beBytes ∧
    (List.replicate (d.width * d.height) c).length = d.width * d.height := by
  refine ⟨?_, specChunks_flatten _, by simp⟩
  unfold clear
  rw [bind_run, Nat.mod_eq_of_lt (show d.width < 65536 by omega),
    Nat.mod_eq_of_lt (show d.height < 65536 by omega), set_pixels_buffered_run]
  simp [List.length_replicate]

/-- Witness for C9 on a 3×2 panel. -/
theorem clear_full_panel_witness :
    ((0 : Nat) < 3 ∧ (3 : Nat) ≤ 65535 ∧ (0 : Nat) < 2 ∧ (2 : Nat) ≤ 65535) ∧
    (clear (⟨true, false, 0, 0, 3, 2⟩ : ST7735) allOk 0xFFEE 0).1.length = 14 :=
  ⟨⟨by decide, by decide, by decide, by decide⟩, by
    rw [(clear_full_panel (⟨true, false, 0, 0, 3, 2⟩ : ST7735) 0xFFEE 0
      (by decide) (by decide) (by decide) (by decide)).1]
    decide⟩

/- ---------------------------------------------------------------------
   C8: draw_iter.
   --------------------------------------------------------------------- -/

theorem set_pixel_run (d : ST7735) (x y c n : Nat) :
    set_pixel d allOk x y c n =
      ([Event.dcLow, Event.spiWrite [Instruction.CASET.toByte], Event.dcHigh,
        Event.spiWrite (beBytes (addU16 x d.dx)),
        Event.spiWrite (beBytes (addU16 x d.dx)),
        Event.dcLow, Event.spiWrite [Instruction.RASET.toByte], Event.dcHigh,
        Event.spiWrite (beBytes (addU16 y d.dy)),
        Event.spiWrite (beBytes (addU16 y d.dy)),
        Event.dcLow, Event.spiWrite [Instruction.RAMWR.toByte], Event.dcHigh,
        Event.spiWrite (beBytes c)], n + 8, some 2) := rfl

/-- C8: for every input pixel of `draw_iter`, a coordinate outside
    `[0,width) × [0,height)` contributes no bus transaction and no error,
    while an in-bounds coordinate contributes exactly one 1×1 window-set
    (equal start/end words) followed by exactly one single-color pixel
    write; the whole call always succeeds. -/
theorem draw_iter_clipping (d : ST7735) (pixels : List (Point × Nat)) (n : Nat) :
    draw_iter d allOk pixels n =
      (pixels.flatMap fun pc =>
         if 0 ≤ pc.1.x ∧ 0 ≤ pc.1.y ∧ pc.1.x < u32ToI32 d.width ∧
             pc.1.y < u32ToI32 d.height then
           [Event.dcLow, Event.spiWrite [Instruction.CASET.toByte], Event.dcHigh,
            Event.spiWrite (beBytes (addU16 (i32ToU16 pc.1.x) d.dx)),
            Event.spiWrite (beBytes (addU16 (i32ToU16 pc.1.x) d.dx)),
            Event.dcLow, Event.spiWrite [Instruction.RASET.toByte], Event.dcHigh,
            Event.spiWrite (beBytes (addU16 (i32ToU16 pc.1.y) d.dy)),
            Event.spiWrite (beBytes (addU16 (i32ToU16 pc.1.y) d.dy)),
            Event.dcLow, Event.spiWrite [Instruction.RAMWR.toByte], Event.dcHigh,
            Event.spiWrite (beBytes pc.2)]
         else [],
       n + 8 * pixels.countP (fun pc => decide (0 ≤ pc.1.x ∧ 0 ≤ pc.1.y ∧
         pc.1.x < u32ToI32 d.width ∧ pc.1.y < u32ToI32 d.height)),
       some ()) := by
  induction pixels generalizing n with
  | nil => simp [draw_iter, pure_run]
  | cons pc rest ih =>
      obtain ⟨coord, color⟩ := pc
      by_cases hin : 0 ≤ coord.x ∧ 0 ≤ coord.y ∧ coord.x < u32ToI32 d.width ∧
          coord.y < u32ToI32 d.height
      · simp only [draw_iter]
        rw [if_pos hin, bind_run]
        simp only [set_pixel_run, ih]
        rw [Prod.ext_iff, Prod.ext_iff]
        refine ⟨?_, ?_, rfl⟩
        · simp [List.flatMap_cons, if_pos hin]
        · simp [List.countP_cons, hin] <;> omega
      · simp only [draw_iter]
        rw [if_neg hin, ih]
        rw [Prod.ext_iff, Prod.ext_iff]
        refine ⟨?_, ?_, rfl⟩
        · simp [List.flatMap_cons, if_neg hin]
        · simp [List.countP_cons, hin] <;> omega

/- ---------------------------------------------------------------------
   C7: fill_contiguous.  Geometry helpers first.
   --------------------------------------------------------------------- -/

theorem contains_iff (r : Rectangle) (p : Point) :
    r.contains p = true ↔
      (0 < r.size.width ∧ 0 < r.size.height ∧
       r.top_left.x ≤ p.x ∧ r.top_left.y ≤ p.y ∧
       p.x ≤ r.top_left.x + (r.size.width : Int) - 1 ∧
       p.y ≤ r.top_left.y + (r.size.height : Int) - 1) := by
  unfold Rectangle.contains Rectangle.bottom_right
  by_cases hle : r.top_left.x ≤ p.x ∧ r.top_left.y ≤ p.y
  · rw [if_pos hle]
    by_cases hsz : r.size.width > 0 ∧ r.size.height > 0
    · rw [if_pos hsz]
      simp only [Bool.and_eq_true, decide_eq_true_eq]
      constructor
      · rintro ⟨hx, hy⟩
        exact ⟨hsz.1, hsz.2, hle.1, hle.2, hx, hy⟩
      · rintro ⟨-, -, -, -, hx, hy⟩
        exact ⟨hx, hy⟩
    · rw [if_neg hsz]
      constructor
      · intro h; cases h
      · rintro ⟨h1, h2, -⟩; exact absurd ⟨h1, h2⟩ hsz
  · rw [if_neg hle]
    constructor
    · intro h; cases h
    · rintro ⟨-, -, h3, h4, -⟩; exact absurd ⟨h3, h4⟩ hle

theorem common_of_intersection_nonempty (r other : Rectangle)
    (h : (r.intersection other).size ≠ ⟨0, 0⟩) :
    ∃ p : Point, r.contains p = true ∧ other.contains p = true := by
  unfold Rectangle.intersection at h
  rcases hbr2 : other.bottom_right with - | obr <;> rw [hbr2] at h
  · simp at h
  rcases hbr1 : r.bottom_right with - | sbr <;> rw [hbr1] at h
  · simp at h
  unfold Rectangle.bottom_right at hbr1 hbr2
  by_cases hsz1 : r.size.width > 0 ∧ r.size.height > 0
  swap
  · rw [if_neg hsz1] at hbr1; cases hbr1
  by_cases hsz2 : other.size.width > 0 ∧ other.size.height > 0
  swap
  · rw [if_neg hsz2] at hbr2; cases hbr2
  by_cases hov : (rangeOverlaps r.top_left.x (r.top_left.x + (r.size.width : Int))
      other.top_left.x (other.top_left.x + (other.size.width : Int))
    && rangeOverlaps r.top_left.y (r.top_left.y + (r.size.height : Int))
      other.top_left.y (other.top_left.y + (other.size.height : Int))) = true
  swap
  · rw [Bool.not_eq_true] at hov
    simp only [hov, Bool.false_eq_true, if_false] at h
    simp at h
  simp only [rangeOverlaps, Bool.and_eq_true, Bool.or_eq_true,
    decide_eq_true_eq] at hov
  obtain ⟨hovx, hovy⟩ := hov
  refine ⟨⟨max r.top_left.x other.top_left.x, max r.top_left.y other.top_left.y⟩,
    ?_, ?_⟩ <;> rw [contains_iff]
  · exact ⟨hsz1.1, hsz1.2, le_max_left _ _, le_max_left _ _,
      by dsimp only; omega, by dsimp only; omega⟩
  · exact ⟨hsz2.1, hsz2.2, le_max_right _ _, le_max_right _ _,
      by dsimp only; omega, by dsimp only; omega⟩

theorem intersection_of_common (r other : Rectangle) (p : Point)
    (h1 : r.contains p = true) (h2 : other.contains p = true) :
    r.intersection other =
      Rectangle.with_corners
        ⟨max r.top_left.x other.top_left.x, max r.top_left.y other.top_left.y⟩
        ⟨min (r.top_left.x + (r.size.width : Int) - 1)
           (other.top_left.x + (other.size.width : Int) - 1),
         min (r.top_left.y + (r.size.height : Int) - 1)
           (other.top_left.y + (other.size.height : Int) - 1)⟩ := by
  rw [contains_iff] at h1 h2
  obtain ⟨hw1, hh1, hx1, hy1, hx1u, hy1u⟩ := h1
  obtain ⟨hw2, hh2, hx2, hy2, hx2u, hy2u⟩ := h2
  have hov1 : rangeOverlaps r.top_left.x (r.top_left.x + (r.size.width : Int))
      other.top_left.x (other.top_left.x + (other.size.width : Int)) = true := by
    simp only [rangeOverlaps, Bool.or_eq_true, Bool.and_eq_true,
      decide_eq_true_eq]
    omega
  have hov2 : rangeOverlaps r.top_left.y (r.top_left.y + (r.size.height : Int))
      other.top_left.y (other.top_left.y + (other.size.height : Int)) = true := by
    simp only [rangeOverlaps, Bool.or_eq_true, Bool.and_eq_true,
      decide_eq_true_eq]
    omega
  unfold Rectangle.intersection Rectangle.bottom_right
  rw [if_pos ⟨hw2, hh2⟩, if_pos ⟨hw1, hh1⟩]
  simp only [hov1, hov2, Bool.and_self, if_true]

/-- C7: for every requested rectangle whose intersection with the panel
    rectangle `[0,width)×[0,height)` is empty, `fill_contiguous` issues
    no bus traffic at all and succeeds; otherwise it sets the window to
    the intersection (componentwise max of the top-left corners through
    componentwise min of the bottom-right corners) and streams exactly
    the colors whose source coordinate lies inside the intersection, in
    the rectangle's row-major point order (clipped-away colors are
    consumed from the input but not transmitted). -/
theorem fill_contiguous_clipping (d : ST7735) (ok : Oracle) (area : Rectangle)
    (colors : List Nat) (n : Nat)
    (hW : d.width ≤ 65535) (hH : d.height ≤ 65535) :
    ((∀ p : Point, ¬(area.contains p = true ∧
        (Rectangle.mk ⟨0, 0⟩ ⟨d.width, d.height⟩).contains p = true)) →
      fill_contiguous d ok area colors n = ([], n, some ())) ∧
    (∀ p : Point, area.contains p = true →
      (Rectangle.mk ⟨0, 0⟩ ⟨d.width, d.height⟩).contains p = true →
      fill_contiguous d ok area colors n =
        ((set_pixels_buffered d ok
            (max area.top_left.x 0).toNat
            (max area.top_left.y 0).toNat
            (min (area.top_left.x + (area.size.width : Int) - 1)
              ((d.width : Int) - 1)).toNat
            (min (area.top_left.y + (area.size.height : Int) - 1)
              ((d.height : Int) - 1)).toNat
            (((area.points.zip colors).filter fun pc =>
                (Rectangle.with_corners
                  ⟨max area.top_left.x 0, max area.top_left.y 0⟩
                  ⟨min (area.top_left.x + (area.size.width : Int) - 1)
                     ((d.width : Int) - 1),
                   min (area.top_left.y + (area.size.height : Int) - 1)
                     ((d.height : Int) - 1)⟩).contains pc.1).map
              fun pc => pc.2) n).1,
         (set_pixels_buffered d ok
            (max area.top_left.x 0).toNat
            (max area.top_left.y 0).toNat
            (min (area.top_left.x + (area.size.width : Int) - 1)
              ((d.width : Int) - 1)).toNat
            (min (area.top_left.y + (area.size.height : Int) - 1)
              ((d.height : Int) - 1)).toNat
            (((area.points.zip colors).filter fun pc =>
                (Rectangle.with_corners
                  ⟨max area.top_left.x 0, max area.top_left.y 0⟩
                  ⟨min (area.top_left.x + (area.size.width : Int) - 1)
                     ((d.width : Int) - 1),
                   min (area.top_left.y + (area.size.height : Int) - 1)
                     ((d.height : Int) - 1)⟩).contains pc.1).map
              fun pc => pc.2) n).2.1,
         Option.map (fun _ => ())
           (set_pixels_buffered d ok
            (max area.top_left.x 0).toNat
            (max area.top_left.y 0).toNat
            (min (area.top_left.x + (area.size.width : Int) - 1)
              ((d.width : Int) - 1)).toNat
            (min (area.top_left.y + (area.size.height : Int) - 1)
              ((d.height : Int) - 1)).toNat
            (((area.points.zip colors).filter fun pc =>
                (Rectangle.with_corners
                  ⟨max area.top_left.x 0, max area.top_left.y 0⟩
                  ⟨min (area.top_left.x + (area.size.width : Int) - 1)
                     ((d.width : Int) - 1),
                   min (area.top_left.y + (area.size.height : Int) - 1)
                     ((d.height : Int) - 1)⟩).contains pc.1).map
              fun pc => pc.2) n).2.2)) := by
  constructor
  · intro hempty
    have hzero : (area.intersection ⟨⟨0, 0⟩, ⟨d.width, d.height⟩⟩).size =
        ⟨0, 0⟩ := by
      by_contra hns
      obtain ⟨p, hp1, hp2⟩ := common_of_intersection_nonempty area _ hns
      exact hempty p ⟨hp1, hp2⟩
    simp only [fill_contiguous]
    rw [if_neg (fun hc => hc hzero)]
    rfl
  · intro p hp1 hp2
    have hinter := intersection_of_common area ⟨⟨0, 0⟩, ⟨d.width, d.height⟩⟩ p
      hp1 hp2
    dsimp only at hinter
    simp only [zero_add] at hinter
    rw [contains_iff] at hp1 hp2
    dsimp only at hp2
    simp only [zero_add] at hp2
    obtain ⟨hw1, hh1, hx1, hy1, hx1u, hy1u⟩ := hp1
    obtain ⟨hW0, hH0, hx2, hy2, hx2u, hy2u⟩ := hp2
    have hc1x : max area.top_left.x 0 ≤
        min (area.top_left.x + (area.size.width : Int) - 1)
          ((d.width : Int) - 1) := by omega
    have hc1y : max area.top_left.y 0 ≤
        min (area.top_left.y + (area.size.height : Int) - 1)
          ((d.height : Int) - 1) := by omega
    simp only [fill_contiguous]
    rw [hinter]
    rw [if_pos (by simp [Rectangle.with_corners])]
    have e1 : i32ToU16 (Rectangle.with_corners
        ⟨max area.top_left.x 0, max area.top_left.y 0⟩
        ⟨min (area.top_left.x + (area.size.width : Int) - 1)
           ((d.width : Int) - 1),
         min (area.top_left.y + (area.size.height : Int) - 1)
           ((d.height : Int) - 1)⟩).top_left.x =
        (max area.top_left.x 0).toNat := by
      unfold Rectangle.with_corners i32ToU16
      dsimp only
      omega
    have e2 : i32ToU16 (Rectangle.with_corners
        ⟨max area.top_left.x 0, max area.top_left.y 0⟩
        ⟨min (area.top_left.x + (area.size.width : Int) - 1)
           ((d.width : Int) - 1),
         min (area.top_left.y + (area.size.height : Int) - 1)
           ((d.height : Int) - 1)⟩).top_left.y =
        (max area.top_left.y 0).toNat := by
      unfold Rectangle.with_corners i32ToU16
      dsimp only
      omega
    have e3 : i32ToU16 ((Rectangle.with_corners
        ⟨max area.top_left.x 0, max area.top_left.y 0⟩
        ⟨min (area.top_left.x + (area.size.width : Int) - 1)
           ((d.width : Int) - 1),
         min (area.top_left.y + (area.size.height : Int) - 1)
           ((d.height : Int) - 1)⟩).top_left.x +
        u32ToI32 ((Rectangle.with_corners
        ⟨max area.top_left.x 0, max area.top_left.y 0⟩
        ⟨min (area.top_left.x + (area.size.width : Int) - 1)
           ((d.width : Int) - 1),
         min (area.top_left.y + (area.size.height : Int) - 1)
           ((d.height : Int) - 1)⟩).size.width - 1)) =
        (min (area.top_left.x + (area.size.width : Int) - 1)
          ((d.width : Int) - 1)).toNat := by
      unfold Rectangle.with_corners u32ToI32 i32ToU16
      dsimp only
      rw [Nat.add_sub_cancel]
      rw [if_pos (by omega)]
      rw [Nat.mod_eq_of_lt (by omega)]
      omega
    have e4 : i32ToU16 ((Rectangle.with_corners
        ⟨max area.top_left.x 0, max area.top_left.y 0⟩
        ⟨min (area.top_left.x + (area.size.width : Int) - 1)
           ((d.width : Int) - 1),
         min (area.top_left.y + (area.size.height : Int) - 1)
           ((d.height : Int) - 1)⟩).top_left.y +
        u32ToI32 ((Rectangle.with_corners
        ⟨max area.top_left.x 0, max area.top_left.y 0⟩
        ⟨min (area.top_left.x + (area.size.width : Int) - 1)
           ((d.width : Int) - 1),
         min (area.top_left.y + (area.size.height : Int) - 1)
           ((d.height : Int) - 1)⟩).size.height - 1)) =
        (min (area.top_left.y + (area.size.height : Int) - 1)
          ((d.height : Int) - 1)).toNat := by
      unfold Rectangle.with_corners u32ToI32 i32ToU16
      dsimp only
      rw [Nat.add_sub_cancel]
      rw [if_pos (by omega)]
      rw [Nat.mod_eq_of_lt (by omega)]
      omega
    rw [e1, e2, e3, e4]
    rcases hspb : set_pixels_buffered d ok
        (max area.top_left.x 0).toNat
        (max area.top_left.y 0).toNat
        (min (area.top_left.x + (area.size.width : Int) - 1)
          ((d.width : Int) - 1)).toNat
        (min (area.top_left.y + (area.size.height : Int) - 1)
          ((d.height : Int) - 1)).toNat
        (((area.points.zip colors).filter fun pc =>
            (Rectangle.with_corners
              ⟨max area.top_left.x 0, max area.top_left.y 0⟩
              ⟨min (area.top_left.x + (area.size.width : Int) - 1)
                 ((d.width : Int) - 1),
               min (area.top_left.y + (area.size.height : Int) - 1)
                 ((d.height : Int) - 1)⟩).contains pc.1).map
          fun pc => pc.2) n with ⟨t1, n1, r1⟩
    rw [bind_run, hspb]
    cases r1 with
    | none => simp
    | some a => simp [pure_run]

/-- Witness for C7: a 2×2 rectangle at (-5,-5) lies fully outside a 4×3
    panel, and the fill is a successful no-op. -/
theorem fill_contiguous_clipping_witness :
    fill_contiguous (⟨true, false, 0, 0, 4, 3⟩ : ST7735) allOk
      (⟨⟨-5, -5⟩, ⟨2, 2⟩⟩ : Rectangle) [1, 2, 3, 4] 0 = ([], 0, some ()) :=
  (fill_contiguous_clipping (⟨true, false, 0, 0, 4, 3⟩ : ST7735) allOk
      (⟨⟨-5, -5⟩, ⟨2, 2⟩⟩ : Rectangle) [1, 2, 3, 4] 0 (by decide) (by decide)).1
    (by
      rintro p ⟨h1, h2⟩
      rw [contains_iff] at h1 h2
      dsimp only at h1 h2
      omega)

end ST7735Driver
